import Mathlib

/-!
Verification of the fonduer-tutorials repository (hardware_image notebook).

The repository's only original code is in
src/hardware_image/transistor_image_tutorial.ipynb:

* cell 15: a deterministic train/dev/test split of the parsed documents by
  sorted document name with cumulative fraction thresholds
  splits = (0.5, 0.75);
* cell 18: an accept-all figure matcher (do_nothing_matcher);
* cells 20/22: calls into the external fonduer library
  (OmniFigures(type='png'), CandidateExtractor.apply).

The split assigner and the matcher are embedded directly from the source.
The candidate-extraction pipeline itself lives in the external fonduer
library, not in this repository, so it is modelled from the specification
(sections 4.4 and 4.5 of the design document); the corresponding
definitions carry a doc comment starting with Modelled from the spec.
-/

/-- Split labels; the notebook refers to train/dev/test as splits 0/1/2. -/
inductive Split
  | train
  | dev
  | test
deriving DecidableEq, Repr

/-- Source, cell 15: splits = (0.5, 0.75), the two cumulative fraction
thresholds of the split assignment loop. -/
def splits : ℚ × ℚ := (1/2, 3/4)

/-- Source, cell 15, loop body: with ld documents in total, the document at
0-based sorted index i goes to train if i < splits[0]*ld, to dev if
i < splits[1]*ld, and to test otherwise. -/
def assignIndex (ld i : ℕ) : Split :=
  if (i : ℚ) < splits.1 * ld then Split.train
  else if (i : ℚ) < splits.2 * ld then Split.dev
  else Split.test

/-- Source, cell 15: data = [(doc.name, doc) for doc in docs];
data.sort(key=lambda x: x[0]) — the document names sorted ascending. -/
def sortedDocs (docs : List String) : List String :=
  List.insertionSort (· ≤ ·) docs

/-- Source, cell 15: the documents that the loop adds to the set of split s:
enumerate the sorted names and keep those whose index is assigned to s. -/
def splitDocs (docs : List String) (s : Split) : List String :=
  (((sortedDocs docs).enum.filter
    (fun p => assignIndex (sortedDocs docs).length p.1 = s)).map Prod.snd)

/-- Source, cell 15: train_docs. -/
def train_docs (docs : List String) : List String := splitDocs docs Split.train

/-- Source, cell 15: dev_docs. -/
def dev_docs (docs : List String) : List String := splitDocs docs Split.dev

/-- Source, cell 15: test_docs. -/
def test_docs (docs : List String) : List String := splitDocs docs Split.test

/-- The whole split assignment of cell 15 as one function. -/
def splitAssigner (docs : List String) :
    List String × List String × List String :=
  (train_docs docs, dev_docs docs, test_docs docs)

/-- Modelled from the spec (section 3, Data Model): a Figure is an embedded
image belonging to a Document; it carries a position index, a storage URL
and a format tag. -/
structure Figure where
  position : ℕ
  url : String
  format : String
deriving DecidableEq, Repr

/-- Modelled from the spec (section 3, Data Model): a Document has a unique
name and owns a set of Figures; the phrases play no role in
figure-candidate extraction. -/
structure Document where
  name : String
  figures : List Figure
deriving DecidableEq, Repr

/-- Modelled from the spec (section 3, Data Model): a Candidate is a tuple
of referenced entities — here a single Figure — tagged with the document it
came from and the split it belongs to (train=0/dev=1/test=2). -/
structure Candidate where
  docName : String
  split : ℕ
  fig : Figure
deriving DecidableEq, Repr

/-- Source, cell 20: figs = OmniFigures(type='png'); the candidate space
itself is part of the external fonduer library, so its behaviour is
modelled from the spec (section 4.4): the space of all Figures of a given
image format in one document. -/
def OmniFigures (type : String) (d : Document) : List Figure :=
  d.figures.filter (fun f => f.format = type)

/-- Source, cell 18: def do_nothing_matcher(fig): return True. -/
def do_nothing_matcher (fig : Figure) : Bool := true

/-- Source, cell 18:
fig_matcher = LambdaFunctionFigureMatcher(func=do_nothing_matcher). -/
def fig_matcher : Figure → Bool := do_nothing_matcher

/-- Modelled from the spec (section 4.5): the per-document work of
CandidateExtractor.apply, which is part of the external fonduer library
and absent from this repository — enumerate the candidate space of the
document, reject any figure failing any matcher, reject any survivor
failing the optional throttler, and tag the remainder with the requested
split label and the document name. -/
def extractDoc (space : Document → List Figure)
    (matchers : List (Figure → Bool)) (throttler : Option (Figure → Bool))
    (split : ℕ) (d : Document) : List Candidate :=
  ((((space d).filter (fun f => matchers.all (fun m => m f))).filter
    (fun f =>
      match throttler with
      | some t => t f
      | none => true)).map
    (fun f => { docName := d.name, split := split, fig := f }))

/-- Modelled from the spec (section 4.5): persisting the extraction result
of one (document, split) pair into the store with the
upsert-or-clear-then-insert semantics the spec requires for idempotence:
the stored candidates of that document and split are replaced by the newly
extracted ones. -/
def applyExtractor (space : Document → List Figure)
    (matchers : List (Figure → Bool)) (throttler : Option (Figure → Bool))
    (split : ℕ) (d : Document) (store : List Candidate) : List Candidate :=
  store.filter
      (fun c => !(decide (c.docName = d.name) && decide (c.split = split))) ++
    extractDoc space matchers throttler split d

/-- A concrete png figure, for witnesses. -/
def pngFig0 : Figure := { position := 0, url := "fig0.png", format := "png" }

/-- A second concrete png figure, for witnesses. -/
def pngFig1 : Figure := { position := 1, url := "fig1.png", format := "png" }

/-- A concrete document with exactly two png figures, for witnesses. -/
def pngDoc : Document := { name := "doc1", figures := [pngFig0, pngFig1] }

/-- A concrete document with exactly two gif figures (figures that the
configured png candidate space does not enumerate). -/
def gifDoc : Document :=
  { name := "doc2",
    figures :=
      [ { position := 0, url := "fig0.gif", format := "gif" },
        { position := 1, url := "fig1.gif", format := "gif" } ] }

/-- The first threshold comparison of the loop in integer terms. -/
theorem lt_splits1_iff (ld i : ℕ) : ((i:ℚ) < splits.1 * ld) ↔ 2 * i < ld := by
  have h : splits.1 * (ld:ℚ) = (ld:ℚ)/2 := by
    show (1/2 : ℚ) * (ld:ℚ) = (ld:ℚ)/2
    ring
  rw [h, lt_div_iff₀ (by norm_num)]
  norm_cast
  omega

/-- The second threshold comparison of the loop in integer terms. -/
theorem lt_splits2_iff (ld i : ℕ) : ((i:ℚ) < splits.2 * ld) ↔ 4 * i < 3 * ld := by
  have h : splits.2 * (ld:ℚ) = (3*(ld:ℚ))/4 := by
    show (3/4 : ℚ) * (ld:ℚ) = (3*(ld:ℚ))/4
    ring
  rw [h, lt_div_iff₀ (by norm_num)]
  norm_cast
  omega

/-- Index i is assigned to train exactly when 2*i < ld. -/
theorem assignIndex_eq_train (ld i : ℕ) :
    assignIndex ld i = Split.train ↔ 2 * i < ld := by
  rw [assignIndex]
  split_ifs with h1 h2 <;>
    simp_all [lt_splits1_iff, lt_splits2_iff]

/-- Index i is assigned to dev exactly when ld ≤ 2*i and 4*i < 3*ld. -/
theorem assignIndex_eq_dev (ld i : ℕ) :
    assignIndex ld i = Split.dev ↔ (ld ≤ 2 * i ∧ 4 * i < 3 * ld) := by
  rw [assignIndex]
  split_ifs with h1 h2 <;>
    simp_all [lt_splits1_iff, lt_splits2_iff] <;>
    omega

/-- Index i is assigned to test exactly when 3*ld ≤ 4*i. -/
theorem assignIndex_eq_test (ld i : ℕ) :
    assignIndex ld i = Split.test ↔ 3 * ld ≤ 4 * i := by
  rw [assignIndex]
  split_ifs with h1 h2 <;>
    simp_all [lt_splits1_iff, lt_splits2_iff] <;>
    omega

/-- Sorting does not change the number of documents. -/
theorem length_sortedDocs (docs : List String) :
    (sortedDocs docs).length = docs.length :=
  (List.perm_insertionSort _ docs).length_eq

/-- The length of one split as a count over the index range. -/
theorem length_splitDocs (docs : List String) (s : Split) :
    (splitDocs docs s).length =
      (List.range docs.length).countP
        (fun i => assignIndex docs.length i = s) := by
  rw [splitDocs, List.length_map, ← List.countP_eq_length_filter]
  have h1 : (fun p : ℕ × String =>
        decide (assignIndex (sortedDocs docs).length p.1 = s)) =
      ((fun i => decide (assignIndex (sortedDocs docs).length i = s)) ∘
        Prod.fst) := rfl
  rw [h1, ← List.countP_map, List.enum_map_fst, length_sortedDocs]

/-- Counting the indices of a range below a bound. -/
theorem countP_range_lt (c n : ℕ) :
    (List.range n).countP (fun i => decide (i < c)) = min c n := by
  induction n with
  | zero => simp
  | succ n ih =>
    rw [List.range_succ, List.countP_append]
    simp only [List.countP_cons, List.countP_nil]
    by_cases h : n < c <;> simp [h, ih] <;> omega

/-- Counting the indices of a range inside a half-open band. -/
theorem countP_range_band (a b n : ℕ) :
    (List.range n).countP (fun i => decide (a ≤ i ∧ i < b)) =
      min b n - min a n := by
  induction n with
  | zero => simp
  | succ n ih =>
    rw [List.range_succ, List.countP_append, ih]
    simp only [List.countP_cons, List.countP_nil, decide_eq_true_eq]
    by_cases h : a ≤ n ∧ n < b
    · rw [if_pos h]
      omega
    · rw [if_neg h]
      omega

/-- The train split holds the first ceil(L/2) sorted documents. -/
theorem length_train_docs (docs : List String) :
    (train_docs docs).length = (docs.length + 1) / 2 := by
  rw [train_docs, length_splitDocs]
  rw [List.countP_congr (q := fun i => decide (i < (docs.length + 1) / 2))
    (fun i _ => by
      rw [decide_eq_true_eq, decide_eq_true_eq, assignIndex_eq_train]
      omega)]
  rw [countP_range_lt]
  omega

/-- The dev split holds the next ceil(3L/4) - ceil(L/2) sorted documents. -/
theorem length_dev_docs (docs : List String) :
    (dev_docs docs).length =
      (3 * docs.length + 3) / 4 - (docs.length + 1) / 2 := by
  rw [dev_docs, length_splitDocs]
  rw [List.countP_congr
    (q := fun i => decide ((docs.length + 1) / 2 ≤ i ∧ i < (3 * docs.length + 3) / 4))
    (fun i _ => by
      rw [decide_eq_true_eq, decide_eq_true_eq, assignIndex_eq_dev]
      omega)]
  rw [countP_range_band]
  omega

/-- The test split holds the last L - ceil(3L/4) sorted documents. -/
theorem length_test_docs (docs : List String) :
    (test_docs docs).length = docs.length - (3 * docs.length + 3) / 4 := by
  rw [test_docs, length_splitDocs]
  rw [List.countP_congr
    (q := fun i => decide ((3 * docs.length + 3) / 4 ≤ i ∧ i < docs.length))
    (fun i hi => by
      rw [decide_eq_true_eq, decide_eq_true_eq, assignIndex_eq_test]
      have := List.mem_range.mp hi
      omega)]
  rw [countP_range_band]
  omega

/-- Splitting any list by the three values of a Split-valued function is a
permutation of the list. -/
theorem filter_three_perm {α : Type} (g : α → Split) (l : List α) :
    List.Perm
      ((l.filter (fun a => g a = Split.train) ++
        l.filter (fun a => g a = Split.dev)) ++
        l.filter (fun a => g a = Split.test)) l := by
  have hA : l.filter (fun a => decide (g a = Split.dev)) =
      (l.filter (fun a => !decide (g a = Split.train))).filter
        (fun a => decide (g a = Split.dev)) := by
    rw [List.filter_filter]
    apply (List.filter_congr ?_).symm
    intro a _
    cases h : g a <;> simp [h]
  have hB : l.filter (fun a => decide (g a = Split.test)) =
      (l.filter (fun a => !decide (g a = Split.train))).filter
        (fun a => !decide (g a = Split.dev)) := by
    rw [List.filter_filter]
    apply (List.filter_congr ?_).symm
    intro a _
    cases h : g a <;> simp [h]
  rw [List.append_assoc, hA, hB]
  exact ((List.filter_append_perm _ _).append_left _).trans
    (List.filter_append_perm _ l)

/-- The three splits together are a permutation of the document list. -/
theorem splitDocs_perm (docs : List String) :
    List.Perm (train_docs docs ++ dev_docs docs ++ test_docs docs) docs := by
  rw [train_docs, dev_docs, test_docs, splitDocs, splitDocs, splitDocs]
  have h := (filter_three_perm
    (fun p : ℕ × String => assignIndex (sortedDocs docs).length p.1)
    (sortedDocs docs).enum).map Prod.snd
  rw [List.map_append, List.map_append, List.enum_map_snd] at h
  exact h.trans (List.perm_insertionSort _ docs)

/-- With distinct names, the sorted document at index i lies in split s
exactly when the loop assigns index i to s. -/
theorem get_mem_splitDocs_iff (docs : List String) (h : docs.Nodup) {i : ℕ}
    {x : String} (hx : (sortedDocs docs)[i]? = some x) (s : Split) :
    x ∈ splitDocs docs s ↔ assignIndex docs.length i = s := by
  have hnd : (sortedDocs docs).Nodup :=
    (List.perm_insertionSort _ docs).nodup_iff.mpr h
  obtain ⟨hi, hget⟩ := List.getElem?_eq_some.mp hx
  rw [splitDocs, ← length_sortedDocs docs]
  constructor
  · intro hmem
    obtain ⟨p, hp, hpx⟩ := List.mem_map.mp hmem
    obtain ⟨hpe, hps⟩ := List.mem_filter.mp hp
    rw [decide_eq_true_eq] at hps
    have hp2 : (sortedDocs docs)[p.1]? = some p.2 :=
      List.mem_enum_iff_getElem?.mp hpe
    obtain ⟨hj, hgj⟩ := List.getElem?_eq_some.mp hp2
    have hji : p.1 = i := by
      apply hnd.getElem_inj_iff.mp
      rw [hgj, hpx, hget]
    rw [← hji]
    exact hps
  · intro hs
    apply List.mem_map.mpr
    refine ⟨(i, x), List.mem_filter.mpr ⟨?_, ?_⟩, rfl⟩
    · exact List.mem_enum_iff_getElem?.mpr hx
    · simpa using hs

/-- The ceiling of L/2 as natural division. -/
theorem ceil_half (L : ℕ) : Nat.ceil ((L:ℚ)/2) = (L+1)/2 := by
  rcases Nat.eq_zero_or_pos L with h | h
  · simp [h]
  · rw [Nat.ceil_eq_iff (by omega)]
    have h1 : 1 ≤ (L+1)/2 := by omega
    rw [Nat.cast_sub h1, lt_div_iff₀ (by norm_num : (0:ℚ) < 2),
      div_le_iff₀ (by norm_num : (0:ℚ) < 2), sub_mul]
    have h2 : 2 * ((L+1)/2) ≤ L + 1 := by omega
    have h3 : L ≤ 2 * ((L+1)/2) := by omega
    constructor
    · have h4 : ((2 * ((L+1)/2) : ℕ) : ℚ) ≤ ((L:ℚ) + 1) := by exact_mod_cast h2
      push_cast at h4 ⊢
      linarith
    · have h4 : ((L:ℕ) : ℚ) ≤ ((2 * ((L+1)/2) : ℕ) : ℚ) := by exact_mod_cast h3
      push_cast at h4 ⊢
      linarith

/-- The ceiling of 3L/4 as natural division. -/
theorem ceil_three_quarters (L : ℕ) : Nat.ceil (3*(L:ℚ)/4) = (3*L+3)/4 := by
  rcases Nat.eq_zero_or_pos L with h | h
  · simp [h]
  · rw [Nat.ceil_eq_iff (by omega)]
    have h1 : 1 ≤ (3*L+3)/4 := by omega
    rw [Nat.cast_sub h1, lt_div_iff₀ (by norm_num : (0:ℚ) < 4),
      div_le_iff₀ (by norm_num : (0:ℚ) < 4), sub_mul]
    have h2 : 4 * ((3*L+3)/4) ≤ 3*L + 3 := by omega
    have h3 : 3*L ≤ 4 * ((3*L+3)/4) := by omega
    constructor
    · have h4 : ((4 * ((3*L+3)/4) : ℕ) : ℚ) ≤ (3*(L:ℚ) + 3) := by exact_mod_cast h2
      push_cast at h4 ⊢
      linarith
    · have h4 : ((3*L:ℕ) : ℚ) ≤ ((4 * ((3*L+3)/4) : ℕ) : ℚ) := by exact_mod_cast h3
      push_cast at h4 ⊢
      linarith

/-- Sorting the already sorted four-name list changes nothing. -/
theorem sortedDocs_abcd :
    sortedDocs ["a", "b", "c", "d"] = ["a", "b", "c", "d"] := by
  apply List.Sorted.insertionSort_eq
  have hab : ("a" : String) ≤ "b" := le_of_lt (String.lt_iff_toList_lt.mpr (by decide))
  have hac : ("a" : String) ≤ "c" := le_of_lt (String.lt_iff_toList_lt.mpr (by decide))
  have had : ("a" : String) ≤ "d" := le_of_lt (String.lt_iff_toList_lt.mpr (by decide))
  have hbc : ("b" : String) ≤ "c" := le_of_lt (String.lt_iff_toList_lt.mpr (by decide))
  have hbd : ("b" : String) ≤ "d" := le_of_lt (String.lt_iff_toList_lt.mpr (by decide))
  have hcd : ("c" : String) ≤ "d" := le_of_lt (String.lt_iff_toList_lt.mpr (by decide))
  simp [List.Sorted, List.pairwise_cons, hab, hac, had, hbc, hbd, hcd]
  decide

/-- Sorting the two-name list b, a. -/
theorem sortedDocs_ba : sortedDocs ["b", "a"] = ["a", "b"] := by
  have h : ¬ (("b" : String) ≤ "a") :=
    not_le.mpr (String.lt_iff_toList_lt.mpr (by decide))
  simp [sortedDocs, List.insertionSort, List.orderedInsert, h]

/-- Sorting the already sorted two-name list a, b. -/
theorem sortedDocs_ab : sortedDocs ["a", "b"] = ["a", "b"] := by
  have h : ("a" : String) ≤ "b" :=
    le_of_lt (String.lt_iff_toList_lt.mpr (by decide))
  simp [sortedDocs, List.insertionSort, List.orderedInsert, h]

/-- Every candidate produced by the extractor carries the document name and
the requested split label. -/
theorem extractDoc_keys (space : Document → List Figure)
    (matchers : List (Figure → Bool)) (throttler : Option (Figure → Bool))
    (split : ℕ) (d : Document) {c : Candidate}
    (hc : c ∈ extractDoc space matchers throttler split d) :
    c.docName = d.name ∧ c.split = split := by
  rw [extractDoc] at hc
  obtain ⟨f, -, rfl⟩ := List.mem_map.mp hc
  exact ⟨rfl, rfl⟩

/-- The first threshold comparison reversed, in integer terms. -/
theorem le_splits1_iff (ld i : ℕ) : (splits.1 * ld ≤ (i:ℚ)) ↔ ld ≤ 2 * i := by
  rw [← not_lt, lt_splits1_iff]
  omega

/-- The second threshold comparison reversed, in integer terms. -/
theorem le_splits2_iff (ld i : ℕ) : (splits.2 * ld ≤ (i:ℚ)) ↔ 3 * ld ≤ 4 * i := by
  rw [← not_lt, lt_splits2_iff]
  omega

/-- C1: for every document set the Split Assigner sorts the document names
ascending and, with thresholds (f1, f2) = (0.5, 0.75) and document count
L, puts the name at 0-based sorted index i into train when i < f1*L, into
dev when f1*L ≤ i < f2*L, and into test otherwise. -/
theorem splitAssigner_rule (docs : List String) (h : docs.Nodup) (i : ℕ)
    (x : String) (hx : (sortedDocs docs)[i]? = some x) :
    (sortedDocs docs).Sorted (· ≤ ·) ∧
    (x ∈ train_docs docs ↔ (i : ℚ) < (0.5 : ℚ) * docs.length) ∧
    (x ∈ dev_docs docs ↔
      ((0.5 : ℚ) * docs.length ≤ i ∧ (i : ℚ) < (0.75 : ℚ) * docs.length)) ∧
    (x ∈ test_docs docs ↔ (0.75 : ℚ) * docs.length ≤ i) := by
  have h05 : (0.5 : ℚ) = splits.1 := by norm_num [splits]
  have h075 : (0.75 : ℚ) = splits.2 := by norm_num [splits]
  refine ⟨List.sorted_insertionSort _ docs, ?_, ?_, ?_⟩
  · rw [train_docs, get_mem_splitDocs_iff docs h hx, assignIndex_eq_train,
      h05, lt_splits1_iff]
  · rw [dev_docs, get_mem_splitDocs_iff docs h hx, assignIndex_eq_dev,
      h05, h075, le_splits1_iff, lt_splits2_iff]
  · rw [test_docs, get_mem_splitDocs_iff docs h hx, assignIndex_eq_test,
      h075, le_splits2_iff]

/-- Witness for C1: in the four-document corpus, the name at sorted index 2
is in the dev split, and the threshold inequalities hold there. -/
theorem splitAssigner_rule_witness :
    (["a", "b", "c", "d"] : List String).Nodup ∧
    (sortedDocs ["a", "b", "c", "d"])[2]? = some "c" ∧
    ("c" ∈ dev_docs ["a", "b", "c", "d"] ↔
      ((0.5 : ℚ) * (["a", "b", "c", "d"] : List String).length ≤ ((2:ℕ) : ℚ) ∧
        ((2:ℕ) : ℚ) < (0.75 : ℚ) * (["a", "b", "c", "d"] : List String).length)) := by
  have hx : (sortedDocs ["a", "b", "c", "d"])[2]? = some "c" := by
    rw [sortedDocs_abcd]
    decide
  exact ⟨by decide, hx,
    (splitAssigner_rule ["a", "b", "c", "d"] (by decide) 2 "c" hx).2.2.1⟩

/-- C2: for a document set with distinct names the three splits form a
partition — every document lies in exactly one split, the splits are
pairwise disjoint — and the sizes follow the floor/ceil boundary rule:
ceil(L/2) train documents, ceil(3L/4) - ceil(L/2) dev documents and
L - ceil(3L/4) test documents. -/
theorem splitAssigner_partition (docs : List String) (h : docs.Nodup) :
    (∀ x, x ∈ docs ↔
      (x ∈ train_docs docs ∨ x ∈ dev_docs docs ∨ x ∈ test_docs docs)) ∧
    List.Disjoint (train_docs docs) (dev_docs docs) ∧
    List.Disjoint (train_docs docs) (test_docs docs) ∧
    List.Disjoint (dev_docs docs) (test_docs docs) ∧
    (train_docs docs).length = Nat.ceil ((docs.length : ℚ)/2) ∧
    (dev_docs docs).length =
      Nat.ceil (3*(docs.length : ℚ)/4) - Nat.ceil ((docs.length : ℚ)/2) ∧
    (test_docs docs).length = docs.length - Nat.ceil (3*(docs.length : ℚ)/4) := by
  have hperm := splitDocs_perm docs
  have hnd : (train_docs docs ++ dev_docs docs ++ test_docs docs).Nodup :=
    hperm.nodup_iff.mpr h
  rw [List.append_assoc, List.nodup_append] at hnd
  obtain ⟨h1, hnd2, hdisj⟩ := hnd
  rw [List.nodup_append] at hnd2
  obtain ⟨h2, h3, hdisj23⟩ := hnd2
  refine ⟨?_, ?_, ?_, hdisj23, ?_, ?_, ?_⟩
  · intro x
    rw [← hperm.mem_iff]
    simp [List.mem_append, or_assoc]
  · exact fun a ha hb => hdisj ha (List.mem_append_left _ hb)
  · exact fun a ha hb => hdisj ha (List.mem_append_right _ hb)
  · rw [length_train_docs, ceil_half]
  · rw [length_dev_docs, ceil_half, ceil_three_quarters]
  · rw [length_test_docs, ceil_three_quarters]

/-- Witness for C2 at the four-document corpus. -/
theorem splitAssigner_partition_witness :
    (["a", "b", "c", "d"] : List String).Nodup ∧
    List.Disjoint (train_docs ["a", "b", "c", "d"])
      (dev_docs ["a", "b", "c", "d"]) :=
  ⟨by decide, (splitAssigner_partition ["a", "b", "c", "d"] (by decide)).2.1⟩

/-- C3: for the input a, b, c, d with thresholds (0.5, 0.75) the Split
Assigner returns train = a, b; dev = c; test = d. -/
theorem splitAssigner_abcd :
    splitAssigner ["a", "b", "c", "d"] = (["a", "b"], ["c"], ["d"]) := by
  have a0 : assignIndex 4 0 = Split.train := by norm_num [assignIndex, splits]
  have a1 : assignIndex 4 1 = Split.train := by norm_num [assignIndex, splits]
  have a2 : assignIndex 4 2 = Split.dev := by norm_num [assignIndex, splits]
  have a3 : assignIndex 4 3 = Split.test := by norm_num [assignIndex, splits]
  rw [splitAssigner, train_docs, dev_docs, test_docs, splitDocs, splitDocs,
    splitDocs, sortedDocs_abcd]
  simp [List.enum, List.enumFrom, List.filter, a0, a1, a2, a3]

/-- C4: split assignment is a pure deterministic function of the sorted
document names and the fixed thresholds: document lists with the same
sorted name sequence receive identical train/dev/test partitions, so two
runs on identical inputs always agree and no randomness is involved. -/
theorem splitAssigner_deterministic (l1 l2 : List String)
    (h : sortedDocs l1 = sortedDocs l2) :
    splitAssigner l1 = splitAssigner l2 := by
  simp only [splitAssigner, train_docs, dev_docs, test_docs, splitDocs, h]

/-- Witness for C4: two differently ordered inputs with the same sorted
name sequence get the same partition. -/
theorem splitAssigner_deterministic_witness :
    sortedDocs ["b", "a"] = sortedDocs ["a", "b"] ∧
    splitAssigner ["b", "a"] = splitAssigner ["a", "b"] := by
  have h : sortedDocs ["b", "a"] = sortedDocs ["a", "b"] := by
    rw [sortedDocs_ba, sortedDocs_ab]
  exact ⟨h, splitAssigner_deterministic _ _ h⟩

/-- C5: the split fractions are the fixed cumulative thresholds
(0.5, 0.75); the mapping depends only on the sorted document name
sequence, and when the document count is a multiple of 4 the three splits
take exactly 50, 25 and 25 percent of the documents. -/
theorem splits_fixed (docs : List String) (h : 4 ∣ docs.length) :
    splits = ((0.5 : ℚ), (0.75 : ℚ)) ∧
    (∀ l1 l2 : List String, sortedDocs l1 = sortedDocs l2 →
      splitAssigner l1 = splitAssigner l2) ∧
    (train_docs docs).length = docs.length / 2 ∧
    (dev_docs docs).length = docs.length / 4 ∧
    (test_docs docs).length = docs.length / 4 := by
  obtain ⟨k, hk⟩ := h
  refine ⟨by norm_num [splits],
    fun l1 l2 h12 => by
      simp only [splitAssigner, train_docs, dev_docs, test_docs, splitDocs, h12],
    ?_, ?_, ?_⟩
  · rw [length_train_docs]
    omega
  · rw [length_dev_docs]
    omega
  · rw [length_test_docs]
    omega

/-- Witness for C5 at the four-document corpus. -/
theorem splits_fixed_witness :
    (4 ∣ (["a", "b", "c", "d"] : List String).length) ∧
    (train_docs ["a", "b", "c", "d"]).length =
      (["a", "b", "c", "d"] : List String).length / 2 := by
  have h : 4 ∣ (["a", "b", "c", "d"] : List String).length := ⟨1, rfl⟩
  exact ⟨h, (splits_fixed ["a", "b", "c", "d"] h).2.2.1⟩

/-- C9: for every document list of length L the split sizes are exactly
ceil(L/2) for train, ceil(3L/4) - ceil(L/2) for dev and L - ceil(3L/4)
for test; in particular all three splits are empty when the list is. -/
theorem splitAssigner_sizes (docs : List String) :
    (train_docs docs).length = Nat.ceil ((docs.length : ℚ)/2) ∧
    (dev_docs docs).length =
      Nat.ceil (3*(docs.length : ℚ)/4) - Nat.ceil ((docs.length : ℚ)/2) ∧
    (test_docs docs).length = docs.length - Nat.ceil (3*(docs.length : ℚ)/4) ∧
    train_docs [] = [] ∧ dev_docs [] = [] ∧ test_docs [] = [] := by
  refine ⟨?_, ?_, ?_, rfl, rfl, rfl⟩
  · rw [length_train_docs, ceil_half]
  · rw [length_dev_docs, ceil_half, ceil_three_quarters]
  · rw [length_test_docs, ceil_three_quarters]

/-- C6: candidate extraction is idempotent per (document, split) pair:
persisting the extraction of a document and split twice leaves exactly the
store of one run — no net change in stored candidate count on the re-run —
and, for a duplicate-free store and candidate space, the store holds no
duplicate candidate rows. -/
theorem applyExtractor_idempotent (space : Document → List Figure)
    (matchers : List (Figure → Bool)) (throttler : Option (Figure → Bool))
    (split : ℕ) (d : Document) (store : List Candidate) :
    applyExtractor space matchers throttler split d
        (applyExtractor space matchers throttler split d store) =
      applyExtractor space matchers throttler split d store ∧
    (store.Nodup → (space d).Nodup →
      (applyExtractor space matchers throttler split d store).Nodup) := by
  constructor
  · simp only [applyExtractor]
    rw [List.filter_append]
    have hkk : (store.filter
          (fun c => !(decide (c.docName = d.name) && decide (c.split = split)))).filter
          (fun c => !(decide (c.docName = d.name) && decide (c.split = split))) =
        store.filter
          (fun c => !(decide (c.docName = d.name) && decide (c.split = split))) := by
      rw [List.filter_filter]
      exact List.filter_congr (fun c _ => Bool.and_self _)
    have hnew : (extractDoc space matchers throttler split d).filter
        (fun c => !(decide (c.docName = d.name) && decide (c.split = split))) = [] := by
      apply List.filter_eq_nil_iff.mpr
      intro c hc
      obtain ⟨hdn, hsp⟩ := extractDoc_keys space matchers throttler split d hc
      simp [hdn, hsp]
    rw [hkk, hnew, List.append_nil]
  · intro h1 h2
    rw [applyExtractor, List.nodup_append]
    refine ⟨h1.filter _, ?_, ?_⟩
    · rw [extractDoc]
      apply List.Nodup.map
      · intro f1 f2 h12
        exact congrArg Candidate.fig h12
      · exact (h2.filter _).filter _
    · intro c hc1 hc2
      have hk := (List.mem_filter.mp hc1).2
      obtain ⟨hdn, hsp⟩ := extractDoc_keys space matchers throttler split d hc2
      simp [hdn, hsp] at hk

/-- Witness for C6: an empty store and the two-png-figure document. -/
theorem applyExtractor_idempotent_witness :
    ([] : List Candidate).Nodup ∧ (OmniFigures "png" pngDoc).Nodup ∧
    (applyExtractor (OmniFigures "png") [fig_matcher] none 0 pngDoc []).Nodup :=
  ⟨by decide, by decide,
    (applyExtractor_idempotent (OmniFigures "png") [fig_matcher] none 0 pngDoc
      []).2 (by decide) (by decide)⟩

/-- C7: the Candidate Extractor never persists a tuple rejected by any
configured matcher or by the configured throttler: every candidate it
produces satisfies every matcher and, when a throttler is configured, the
throttler. -/
theorem extractDoc_respects_matchers (space : Document → List Figure)
    (matchers : List (Figure → Bool)) (throttler : Option (Figure → Bool))
    (split : ℕ) (d : Document) (c : Candidate)
    (hc : c ∈ extractDoc space matchers throttler split d) :
    (∀ m ∈ matchers, m c.fig = true) ∧
    (∀ t, throttler = some t → t c.fig = true) := by
  rw [extractDoc] at hc
  obtain ⟨f, hf, rfl⟩ := List.mem_map.mp hc
  obtain ⟨hf1, hf2⟩ := List.mem_filter.mp hf
  obtain ⟨hf0, hm⟩ := List.mem_filter.mp hf1
  constructor
  · intro m hm2
    exact List.all_eq_true.mp hm m hm2
  · intro t ht
    rw [ht] at hf2
    exact hf2

/-- Witness for C7: a candidate extracted at the two-png-figure document
satisfies the accept-all matcher. -/
theorem extractDoc_respects_matchers_witness :
    ({ docName := "doc1", split := 0, fig := pngFig0 } : Candidate) ∈
      extractDoc (OmniFigures "png") [fig_matcher] none 0 pngDoc ∧
    (∀ m ∈ [fig_matcher],
      m ({ docName := "doc1", split := 0, fig := pngFig0 } : Candidate).fig = true) := by
  have hc : ({ docName := "doc1", split := 0, fig := pngFig0 } : Candidate) ∈
      extractDoc (OmniFigures "png") [fig_matcher] none 0 pngDoc := by decide
  exact ⟨hc, (extractDoc_respects_matchers (OmniFigures "png") [fig_matcher]
    none 0 pngDoc _ hc).1⟩

/-- C8 as stated is false: a document with exactly two figures whose format
is not the configured png type yields zero candidates, not two, because
the configured candidate space OmniFigures(type='png') does not enumerate
its figures. -/
theorem extract_two_figures_cex :
    gifDoc.figures.length = 2 ∧
    (extractDoc (OmniFigures "png") [do_nothing_matcher] none 0
      gifDoc).length = 0 := by
  constructor
  · decide
  · decide

/-- C8, amended: for any document whose two figures are all of the
configured png image format, extraction with the accept-all matcher and no
throttler stores exactly two candidates for that document. -/
theorem extract_two_png_figures (d : Document) (sp : ℕ)
    (h2 : d.figures.length = 2) (hfmt : ∀ f ∈ d.figures, f.format = "png") :
    (extractDoc (OmniFigures "png") [do_nothing_matcher] none sp d).length = 2 := by
  have hof : OmniFigures "png" d = d.figures :=
    List.filter_eq_self.mpr (fun f hf => by simp [hfmt f hf])
  rw [extractDoc, List.length_map, hof]
  have hmat : d.figures.filter
      (fun f => [do_nothing_matcher].all (fun m => m f)) = d.figures :=
    List.filter_eq_self.mpr (fun f _ => by simp [do_nothing_matcher])
  rw [hmat, List.filter_eq_self.mpr (fun f _ => rfl), h2]

/-- Witness for C8 amended: the two-png-figure document yields exactly two
candidates. -/
theorem extract_two_png_figures_witness :
    pngDoc.figures.length = 2 ∧ (∀ f ∈ pngDoc.figures, f.format = "png") ∧
    (extractDoc (OmniFigures "png") [do_nothing_matcher] none 0
      pngDoc).length = 2 :=
  ⟨by decide, by decide,
    extract_two_png_figures pngDoc 0 (by decide) (by decide)⟩

/-- C10: the configured matcher do_nothing_matcher returns true on every
input, so the matcher stage rejects nothing: with no throttler configured,
every figure enumerated by the candidate space of a document becomes a
stored candidate of that document, in order. -/
theorem do_nothing_matcher_accepts_all :
    (∀ fig : Figure, do_nothing_matcher fig = true) ∧
    (∀ (space : Document → List Figure) (sp : ℕ) (d : Document),
      (extractDoc space [fig_matcher] none sp d).map Candidate.fig = space d ∧
      ∀ c ∈ extractDoc space [fig_matcher] none sp d, c.docName = d.name) := by
  refine ⟨fun _ => rfl, fun space sp d => ⟨?_, ?_⟩⟩
  · rw [extractDoc]
    simp only [fig_matcher, do_nothing_matcher, List.all_cons, List.all_nil,
      Bool.and_true, List.filter_true, List.map_map]
    have hcomp : (Candidate.fig ∘ fun f =>
        ({ docName := d.name, split := sp, fig := f } : Candidate)) =
        (id : Figure → Figure) := rfl
    rw [hcomp, List.map_id]
  · intro c hc
    exact (extractDoc_keys space [fig_matcher] none sp d hc).1
